import Mathlib

/-!
Verification development for the dataselect Mini-SEED selection and
pruning engine (src/dataselect.c).  The definitions below are a shallow
embedding of the core data structures and operations of the source:
high-precision times are `Int` tick counts, record descriptors follow
the C `Record` struct (with the tick value 0 standing for an unset
`newstart`/`newend`, exactly as the C code tests these fields for
truthiness), traces carry their aggregate fields and an ordered record
list, and the pruning / trimming / splitting / emission logic is
translated statement by statement from the corresponding C functions.
External codec operations (libmseed) are either taken as function
parameters or, where a concrete definition is unavoidable, modelled
from the specification and marked as such.
-/

namespace Dataselect

/-- Ticks per second of the high-precision time type (`HPTMODULUS`
in libmseed; the spec fixes it to 1e6, microsecond resolution). -/
def HPTMODULUS : Int := 1000000

/-- C-style truncation of a rational toward zero, as performed by a
`(hptime_t)`/`(int)` cast of a `double` in the source. -/
def ratTrunc (q : ℚ) : Int :=
  Int.tdiv q.num (q.den : Int)

/-- Record descriptor, translated from the C `Record` struct: an arena
index for the owning file (`flp`), byte offset, record length in bytes
(`reclen = 0` marks the record dropped), start/end times in ticks, the
quality code, and the trim adjustments `newstart`/`newend` where the
tick value 0 means unset (the C code tests these fields for truthiness). -/
structure Record where
  flp : Nat
  offset : Int
  reclen : Int
  starttime : Int
  endtime : Int
  quality : Char
  newstart : Int
  newend : Int
deriving DecidableEq, Repr

/-- Effective record start time, from `trimtraces()` and the split loop in
`readfiles()`: `( rec->newstart ) ? rec->newstart : rec->starttime`. -/
def effStart (r : Record) : Int :=
  if r.newstart ≠ 0 then r.newstart else r.starttime

/-- Effective record end time:
`( rec->newend ) ? rec->newend : rec->endtime`. -/
def effEnd (r : Record) : Int :=
  if r.newend ≠ 0 then r.newend else r.endtime

/-- Trace with its aggregate fields and record map, following the
libmseed `MSTrace` fields used by the source: the `network` field stands
for the 44-byte NSLC region compared by `memcmp` in `prunetraces()`,
and `recs` is the time-ordered `RecordMap` hung off `MSTrace->private`. -/
structure MSTrace where
  network : String
  dataquality : Char
  samprate : ℚ
  starttime : Int
  endtime : Int
  recs : List Record
deriving DecidableEq, Repr

/-- Quality comparison from `qcompare()`: -1 when `quality1` is greater,
0 when equal, 1 when `quality2` is greater (Q > D > R). -/
def qcompare (quality1 quality2 : Char) : Int :=
  if quality1 = quality2 then 0
  else if quality1 = 'R' ∧ (quality2 = 'D' ∨ quality2 = 'Q') then 1
  else if quality1 = 'D' ∧ quality2 = 'Q' then 1
  else -1

/-- Modelled from the spec: the codec's sample-rate tolerability
predicate (`MS_ISRATETOLERABLE` is supplied by the external libmseed
collaborator; §4.1 "Sample-rate tolerability is provided by the codec").
Two nominal rates are tolerable when their relative difference is below
1/10000. -/
def isratetolerable (a b : ℚ) : Bool :=
  |1 - a / b| < 1 / 10000

/-- Sample period in ticks for a trace, from `trimtraces()` /
`writetraces()` / `readfiles()`:
`hpdelta = ( samprate ) ? (hptime_t) (HPTMODULUS / samprate) : 0`. -/
def hpdeltaOf (samprate : ℚ) : Int :=
  if samprate ≠ 0 then ratTrunc ((HPTMODULUS : ℚ) / samprate) else 0

/-- Time tolerance in ticks, from `trimtraces()`:
`hptimetol = ( timetol == -1 ) ? (hpdelta / 2) : (hptime_t) (HPTMODULUS * timetol)`.
The `/` on the sample period is C integer division (truncation). -/
def hptimetolOf (timetol : ℚ) (hpdelta : Int) : Int :=
  if timetol = -1 then Int.tdiv hpdelta 2 else ratTrunc ((HPTMODULUS : ℚ) * timetol)

/-! ## RecordIndex window filter (readfiles, lines 1406-1422) -/

/-- The indexing-time window filter of `readfiles()`, translated exactly:
a record is skipped when
`(starttime != HPTERROR) && (starttime < recstarttime)` or
`(endtime != HPTERROR) && (recendtime > endtime)`.
The `HPTERROR` sentinel for an unset window bound is rendered as
`Option.none`.  Note that the source consults neither `prunedata` nor
anything else here. -/
def recordFiltered (starttime endtime : Option Int) (recstarttime recendtime : Int) : Bool :=
  (match starttime with
   | some st => decide (st < recstarttime)
   | none => false) ||
  (match endtime with
   | some et => decide (recendtime > et)
   | none => false)

/-- Modelled from the spec: the window-based drop rule of §4.2 step 1.
Drop the record immediately when `window_start` is set and
`record.start < window_start`, or `window_end` is set and
`record.end > window_end`, and `prune_mode ≠ sample`. -/
def specWindowDrop (windowStart windowEnd : Option Int) (prunemode : Char)
    (recstarttime recendtime : Int) : Bool :=
  (decide (prunemode ≠ 's')) &&
  ((match windowStart with
    | some ws => decide (recstarttime < ws)
    | none => false) ||
   (match windowEnd with
    | some we => decide (recendtime > we)
    | none => false))

/-! ## Pruner: HP coverage segments and LP record walk (trimtraces) -/

/-- One step of the `TimeSegment` coverage build of `trimtraces()`,
over the higher-priority trace's record map.  Segments are accumulated
in reverse order.  A record marked dropped (`reclen == 0`) is skipped;
a new segment begins when
`llabs((tsp->endtime + hpdelta) - effstarttime) > hptimetol`, and in
every case the current segment's end is overwritten with the record's
effective end (`tsp->endtime = effendtime`). -/
def segStep (hpdelta hptimetol : Int) (acc : List (Int × Int)) (r : Record) :
    List (Int × Int) :=
  if r.reclen = 0 then acc
  else
    match acc with
    | [] => [(effStart r, effEnd r)]
    | (s1, s2) :: rest =>
      if ((s2 + hpdelta) - effStart r).natAbs > hptimetol then
        (effStart r, effEnd r) :: (s1, s2) :: rest
      else
        (s1, effEnd r) :: rest

/-- The `TimeSegment` list of coverage in the HP trace built by
`trimtraces()`, in time order. -/
def buildSegments (hpdelta hptimetol : Int) (recs : List Record) : List (Int × Int) :=
  (recs.foldl (segStep hpdelta hptimetol) []).reverse

/-- One iteration of the inner `tsp` loop of `trimtraces()` for a
lower-priority record against one HP coverage segment, threading the
record state together with the removed/trimmed counter increments for
its owning file.  Translated in source order: effective times are
computed once, the record is marked (`reclen = 0`, `recrmcount++`) when
completely overlapped by the segment, and then, only when pruning at
the sample level and the record is (still) unmarked, the new end/start
times are assigned from the HP trace's aggregate bounds
(`hptrace->starttime - hpdelta`, `hptrace->endtime + hpdelta`) with a
`rectrimcount++` for each assignment. -/
def lpStep (prunedata : Char) (hpstarttime hpendtime hpdelta : Int)
    (st : Record × Nat × Nat) (seg : Int × Int) : Record × Nat × Nat :=
  let r := st.1
  let rm := st.2.1
  let tr := st.2.2
  let e1 := effStart r
  let e2 := effEnd r
  let r1 := if seg.1 ≤ e1 ∧ e2 ≤ seg.2 then { r with reclen := 0 } else r
  let rm1 := if seg.1 ≤ e1 ∧ e2 ≤ seg.2 then rm + 1 else rm
  if prunedata = 's' ∧ r1.reclen ≠ 0 then
    let r2 := if e1 ≤ hpstarttime ∧ e2 ≥ hpstarttime then
        { r1 with newend := hpstarttime - hpdelta } else r1
    let tr2 := if e1 ≤ hpstarttime ∧ e2 ≥ hpstarttime then tr + 1 else tr
    let r3 := if e1 ≤ hpendtime ∧ e2 ≥ hpendtime then
        { r2 with newstart := hpendtime + hpdelta } else r2
    let tr3 := if e1 ≤ hpendtime ∧ e2 ≥ hpendtime then tr2 + 1 else tr2
    (r3, rm1, tr3)
  else
    (r1, rm1, tr)

/-- The full inner walk of one LP record over all HP coverage segments,
returning the final record state and the removed/trimmed counter
increments for its owning file. -/
def pruneRec (prunedata : Char) (hpstarttime hpendtime hpdelta : Int)
    (segs : List (Int × Int)) (r : Record) : Record × Nat × Nat :=
  segs.foldl (lpStep prunedata hpstarttime hpendtime hpdelta) (r, 0, 0)

/-- `trimtraces()`: build the HP coverage segments, then walk the LP
record map marking completely-overlapped records and, at the sample
level, assigning trim times anchored at the HP trace's aggregate
bounds.  Returns the updated LP trace together with, per record, the
owning file index and the removed/trimmed counter increments applied
to that file. -/
def trimtracesF (prunedata : Char) (timetol : ℚ) (lptrace hptrace : MSTrace) :
    MSTrace × List (Nat × Nat × Nat) :=
  let hpdelta := hpdeltaOf hptrace.samprate
  let hptimetol := hptimetolOf timetol hpdelta
  let segs := buildSegments hpdelta hptimetol hptrace.recs
  let results := lptrace.recs.map (pruneRec prunedata hptrace.starttime hptrace.endtime hpdelta segs)
  ({ lptrace with recs := results.map (fun x => x.1) },
   results.map (fun x => (x.1.flp, x.2.1, x.2.2)))

/-! ## Pruner: pairwise priority resolution (prunetraces) -/

/-- The priority decision of `prunetraces()` for an ordered overlapping
pair `(mst, imst)` with `mst` first in group order:
`-1` means `mst` has priority, `1` means `imst` has priority.  When
`bestquality` is off the stale value `prio` of the function-scoped
`priority` variable is used as the starting value; when the resulting
priority is 0 the longer bounding interval wins, and otherwise
(`else priority = 1`) the second trace wins. -/
def pairDecision (bestquality : Bool) (prio : Int) (mst imst : MSTrace) : Int :=
  let p1 := if bestquality then qcompare mst.dataquality imst.dataquality else prio
  if p1 = 0 then
    (if mst.endtime - mst.starttime > imst.endtime - imst.starttime then -1 else 1)
  else p1

/-- The guard under which `prunetraces()` considers an ordered pair at
all: equal NSLC region (`memcmp(mst->network, imst->network, 44)`),
tolerable sample rates, and overlapping bounding intervals
(`mst->endtime > imst->starttime && mst->starttime < imst->endtime`). -/
def pairConsidered (mst imst : MSTrace) : Prop :=
  mst.network = imst.network ∧
  isratetolerable mst.samprate imst.samprate = true ∧
  mst.endtime > imst.starttime ∧ mst.starttime < imst.endtime

instance (mst imst : MSTrace) : Decidable (pairConsidered mst imst) := by
  unfold pairConsidered; infer_instance

/-- The lower-priority/higher-priority assignment made by
`prunetraces()` for a considered pair: with priority 1 it calls
`trimtraces (mst, imst)` (first trace is trimmed, second is HP),
otherwise `trimtraces (imst, mst)`. -/
def pairLPHP (bestquality : Bool) (prio : Int) (mst imst : MSTrace) :
    MSTrace × MSTrace :=
  if pairDecision bestquality prio mst imst = 1 then (mst, imst) else (imst, mst)

/-- `prunetraces()` restricted to a two-trace group, composed with the
`trimtraces()` record-level effects: the considered pair is resolved
with the priority variable starting at 0 and the losing trace's records
are trimmed.  Returns the two updated traces in group order. -/
def pruneTwo (bestquality : Bool) (prunedata : Char) (timetol : ℚ)
    (mst imst : MSTrace) : MSTrace × MSTrace :=
  if pairConsidered mst imst then
    if pairDecision bestquality 0 mst imst = 1 then
      ((trimtracesF prunedata timetol mst imst).1, imst)
    else
      (mst, (trimtracesF prunedata timetol imst mst).1)
  else (mst, imst)

/-! ## Emitter: record trimming and the per-record write decision -/

/-- The unpacked record state handed around by `trimrecord()`: the
fields of the codec's `MSRecord` that the source reads or writes. -/
structure CodecMsr where
  samprate : ℚ
  starttime : Int
  numsamples : Int
  samplecnt : Int
deriving DecidableEq, Repr

/-- The sanity check at the head of `trimrecord()` (which, in the
source, only prints a diagnostic when it fires and then falls through):
`(rec->newstart && rec->newend && rec->newstart >= rec->newend) ||
 (rec->newstart && (rec->newstart <= rec->starttime || rec->newstart >= rec->endtime)) ||
 (rec->newend && (rec->newend >= rec->endtime || rec->newend <= rec->starttime))`. -/
def trimSanityViolated (r : Record) : Bool :=
  decide ((r.newstart ≠ 0 ∧ r.newend ≠ 0 ∧ r.newstart ≥ r.newend) ∨
          (r.newstart ≠ 0 ∧ (r.newstart ≤ r.starttime ∨ r.newstart ≥ r.endtime)) ∨
          (r.newend ≠ 0 ∧ (r.newend ≥ r.endtime ∨ r.newend ≤ r.starttime)))

/-- Head-trim sample count of `trimrecord()`:
`(int) (((rec->newstart - rec->starttime) / HPTMODULUS) * msr->samprate + 0.5)`;
the tick difference is first truncated by int64 division. -/
def trimStartSamples (r : Record) (m : CodecMsr) : Int :=
  ratTrunc (((Int.tdiv (r.newstart - r.starttime) HPTMODULUS : Int) : ℚ) * m.samprate + 1 / 2)

/-- Tail-trim sample count of `trimrecord()`:
`(int) (((rec->endtime - rec->newend) / HPTMODULUS) * msr->samprate + 0.5)`. -/
def trimEndSamples (r : Record) (m : CodecMsr) : Int :=
  ratTrunc (((Int.tdiv (r.endtime - r.newend) HPTMODULUS : Int) : ℚ) * m.samprate + 1 / 2)

/-- `trimrecord()`, with the codec's unpack and pack operations as
parameters over an abstract byte-buffer type (`List Int`).  The sanity
check at the top only logs and falls through in the source, so it does
not appear in the data flow.  On unpack failure the function returns -1
with the buffer untouched.  Otherwise samples are trimmed from the
head and/or tail, the header start time is updated on a head trim, and
the record is packed: the pack callback overwrites the global record
buffer only when packing succeeds, and the return value is 0 in either
case (`msr_pack`'s result is assigned to `packedrecords` and never
examined). -/
def trimrecordF (unpack : List Int → Option CodecMsr)
    (pack : CodecMsr → Option (List Int)) (rec : Record) (buf : List Int) :
    Int × List Int :=
  match unpack buf with
  | none => (-1, buf)
  | some m0 =>
    let m1 := if rec.newstart ≠ 0 then
        { m0 with starttime := rec.newstart,
                  numsamples := m0.numsamples - trimStartSamples rec m0,
                  samplecnt := m0.samplecnt - trimStartSamples rec m0 }
      else m0
    let m2 := if rec.newend ≠ 0 then
        { m1 with numsamples := m1.numsamples - trimEndSamples rec m1,
                  samplecnt := m1.samplecnt - trimEndSamples rec m1 }
      else m1
    match pack m2 with
    | some out => (0, out)
    | none => (0, buf)

/-- The per-record emission decision of the `writetraces()` loop:
a record marked dropped (`reclen == 0`) is skipped; a record with a new
start or end time set goes through `trimrecord()` and is skipped when
that returns nonzero; every other record's buffer is written to the
configured sinks as is.  `some b` means the bytes `b` are written,
`none` means the record is skipped. -/
def writeRecordStep (unpack : List Int → Option CodecMsr)
    (pack : CodecMsr → Option (List Int)) (rec : Record) (buf : List Int) :
    Option (List Int) :=
  if rec.reclen = 0 then none
  else if rec.newstart ≠ 0 ∨ rec.newend ≠ 0 then
    let res := trimrecordF unpack pack rec buf
    if res.1 ≠ 0 then none else some res.2
  else some buf

/-! ## Splitter (readfiles, split loop) -/

/-- Modelled from the spec: the codec calendar round-trip used by the
split loop (`ms_hptime2btime`, bump the day/hour/minute field, zero the
finer fields, `ms_btime2hptime`), which §4.1 specifies as the next
boundary of the chosen unit strictly greater than the effective start
time.  For a unit of `u` ticks this is the least multiple of `u`
strictly greater than `t`. -/
def nextBoundary (u : Int) (t : Int) : Int :=
  (Int.fdiv t u + 1) * u

/-- Tick count of one split unit, from the `splitboundary` dispatch in
`readfiles()`: days, hours or minutes. -/
def unitTicksOf (splitboundary : Char) : Int :=
  if splitboundary = 'd' then 86400000000
  else if splitboundary = 'h' then 3600000000
  else if splitboundary = 'm' then 60000000
  else 0

/-- The record-splitting loop of `readfiles()` over one freshly indexed
record, with explicit fuel standing for the unbounded C `for (;;)`
loop (`none` models running out of fuel).  Per iteration: the next
boundary strictly above the effective start time is computed; if the
record's end time is beyond the boundary a clone of the current record
descriptor is made, the current record gets `newend = boundary -
hpdelta`, the clone gets `newstart = boundary` (its end time is
untouched), the clone is chained immediately after the current record,
the file's split counter is incremented and the loop continues with the
clone as current; otherwise the loop stops.  Returns the record chain
in order together with the number of splits. -/
def splitLoop (u hpdelta : Int) : Nat → Record → Option (List Record × Nat)
  | 0, _ => none
  | fuel + 1, r =>
    let b := nextBoundary u (effStart r)
    if r.endtime > b then
      match splitLoop u hpdelta fuel { r with newstart := b } with
      | none => none
      | some (l, c) => some ({ r with newend := b - hpdelta } :: l, c + 1)
    else some ([r], 0)

/-! ## Open-file limit handling (setofilelimit, processpod) -/

/-- `setofilelimit()`, with the system calls rendered as parameters:
`getOk` is whether `getrlimit` succeeds, `cur` the current soft limit it
reports, and `setOk` whether `setrlimit` succeeds.  Returns the open
file limit on success and -1 on error; the limit is only raised when
the current one is below `limit`. -/
def setofilelimitF (getOk : Bool) (cur : Int) (limit : Int) (setOk : Bool) : Int :=
  if !getOk then -1
  else if cur < limit then (if setOk then limit else -1) else cur

/-- The per-channel-group gate in `processpod()`: the group's files are
read, pruned and emitted only when
`setofilelimit ((filecount * 2) + 20)` does not return -1; otherwise the
file list is freed and the loop continues with the next group. -/
def podGroupProceeds (getOk : Bool) (cur : Int) (filecount : Nat) (setOk : Bool) : Bool :=
  setofilelimitF getOk cur (2 * (filecount : Int) + 20) setOk ≠ -1

/-! ## Replace-input renaming and post-emit unlink (readfiles, writetraces) -/

/-- The input-file name actually read, from `readfiles()`: with
`replaceinput` set the original file is renamed by appending `.orig`
and that renamed file becomes the input; otherwise the original name
is read directly. -/
def inFileName (replaceinput : Bool) (orig : String) : String :=
  if replaceinput then orig ++ ".orig" else orig

/-- The files unlinked by the close-down loop of `writetraces()`:
for every file of the file list, `unlink (flp->infilename)` is called
exactly when `nobackups` is set and no single output file is in use
(`nobackups && ! ofp`).  `usedSingleOut` is whether the `-o` output
stream `ofp` is open. -/
def unlinkTargets (replaceinput nobackups usedSingleOut : Bool)
    (orignames : List String) : List String :=
  if nobackups && !usedSingleOut then orignames.map (inFileName replaceinput) else []

/-! ## Derived predicates used to state properties -/

/-- Complete overlap of a record's effective window by one coverage
segment, the condition tested by `trimtraces()`:
`effstarttime >= tsp->starttime && effendtime <= tsp->endtime`. -/
def segContains (seg : Int × Int) (r : Record) : Prop :=
  seg.1 ≤ effStart r ∧ effEnd r ≤ seg.2

instance (seg : Int × Int) (r : Record) : Decidable (segContains seg r) := by
  unfold segContains; infer_instance

/-- Every tick instant of `[a, b]` lies in some segment of the list:
containment in the union coverage described by the segment list. -/
def coveredRange (segs : List (Int × Int)) (a b : Int) : Prop :=
  ∀ t : Int, a ≤ t → t ≤ b → ∃ s ∈ segs, s.1 ≤ t ∧ t ≤ s.2

/-! ## Concrete instances used by counterexamples and witnesses -/

/-- Higher-priority trace at 1 Hz whose two unmarked records leave a
coverage break of exactly one tick (10000000 to 10000001), so that the
segment builder produces two abutting segments whose union covers the
whole span. -/
def hpT : MSTrace :=
  ⟨"NN_STA__BHZ", 'D', 1, 0, 20000000,
   [⟨1, 0, 512, 0, 10000000, 'D', 0, 0⟩,
    ⟨1, 512, 512, 10000001, 20000000, 'D', 0, 0⟩]⟩

/-- Lower-priority trace with one record spanning the HP trace's
internal segment break. -/
def lpT : MSTrace :=
  ⟨"NN_STA__BHZ", 'R', 1, 5000000, 15000000,
   [⟨0, 0, 512, 5000000, 15000000, 'R', 0, 0⟩]⟩

/-- First trace of an identical-bounds, equal-quality pair (from file 0). -/
def A0 : MSTrace :=
  ⟨"NN_STA__BHZ", 'D', 1, 0, 10000000, [⟨0, 0, 512, 0, 10000000, 'D', 0, 0⟩]⟩

/-- Second trace of the pair, identical coverage and quality but
provenance in file 1. -/
def B0 : MSTrace :=
  ⟨"NN_STA__BHZ", 'D', 1, 0, 10000000, [⟨1, 0, 512, 0, 10000000, 'D', 0, 0⟩]⟩

/-- A record violating the trim sanity precondition: both adjustments
set with `newstart > newend`. -/
def cexTrimRec : Record := ⟨0, 0, 512, 0, 10000000, 'D', 6000000, 4000000⟩

/-- A record with a legitimate head trim requested
(`newstart` strictly inside `(start, end)`). -/
def c7Rec : Record := ⟨0, 0, 512, 0, 10000000, 'D', 2000000, 0⟩

/-- A record crossing one minute boundary (30 s to 90 s at 1 Hz). -/
def sr : Record := ⟨0, 0, 512, 30000000, 90000000, 'D', 0, 0⟩

/-- The split chain produced for `sr` on minute boundaries: the original
descriptor trimmed to just before the boundary, and one clone starting
at the boundary with the original end time. -/
def srList : List Record :=
  [⟨0, 0, 512, 30000000, 90000000, 'D', 0, 59000000⟩,
   ⟨0, 0, 512, 30000000, 90000000, 'D', 60000000, 0⟩]

/-- A record with neither trim adjustment set and a window crossing a
hypothetical HP trace start at tick `1000000`. -/
def c10Rec : Record := ⟨0, 0, 512, -5000000, 5000000, 'D', 0, 0⟩

/-- A lower-priority record crossing an HP trace's aggregate start time
without being contained in any coverage segment. -/
def c4Rec : Record := ⟨0, 0, 512, 5000000, 15000000, 'R', 0, 0⟩

/-! ## Theorems -/

/-- At a nominal rate of 1 Hz the sample period is 1000000 ticks. -/
lemma hpdeltaOf_one : hpdeltaOf 1 = 1000000 := by
  unfold hpdeltaOf ratTrunc HPTMODULUS
  norm_num

/-- With the default time tolerance the tick tolerance is half the
1 Hz sample period. -/
lemma hptimetolOf_default : hptimetolOf (-1) 1000000 = 500000 := by
  decide

/-- A rate is tolerable with itself (at 1 Hz). -/
lemma isratetolerable_one : isratetolerable 1 1 = true := by
  simp only [isratetolerable, decide_eq_true_eq]
  norm_num

/-- C1: the claim states that during indexing a record is dropped when
`window_start` is set and the record starts before it (or `window_end`
is set and the record ends after it), and that this dropping is
suppressed entirely when `prune_mode = sample`.  The source filter
diverges at a concrete input: with `window_start = 5000000` it drops a
record `[10000000, 20000000]` lying entirely after the window start
(the spec rule keeps it), it keeps a record `[3000000, 20000000]`
starting before the window start (the spec rule drops it), and it
still drops the former record when `prune_mode = sample` (the spec
rule never drops in sample mode). -/
theorem C1_window_filter_divergence :
    recordFiltered (some 5000000) none 10000000 20000000 = true ∧
    specWindowDrop (some 5000000) none 'r' 10000000 20000000 = false ∧
    recordFiltered (some 5000000) none 3000000 20000000 = false ∧
    specWindowDrop (some 5000000) none 'r' 3000000 20000000 = true ∧
    specWindowDrop (some 5000000) none 's' 10000000 20000000 = false := by
  decide

/-- C5: the claim states that a record whose trim times violate the
sanity preconditions is emitted with its original bytes.  On the
record `cexTrimRec` (with `newstart = 6000000 > newend = 4000000`) the
sanity check fires, yet the emission step still unpacks, trims and
repacks: the bytes written are the repacked ones (here carrying the
trimmed header start time 6000000), not the original buffer `[9, 9]`. -/
theorem C5_trim_not_skipped_on_violation :
    trimSanityViolated cexTrimRec = true ∧
    writeRecordStep (fun _ => some ⟨1, 0, 10, 10⟩)
      (fun m => some [m.starttime]) cexTrimRec [9, 9] =
      some [6000000] ∧
    writeRecordStep (fun _ => some ⟨1, 0, 10, 10⟩)
      (fun m => some [m.starttime]) cexTrimRec [9, 9] ≠
      some [9, 9] := by
  decide

/-- C7: the claim states that when the codec's repack of a trimmed
record fails the record is skipped.  In the source, `msr_pack`'s result
is assigned to `packedrecords` and never examined, and `trimrecord()`
returns 0; the emission step therefore writes the buffer, which still
holds the record's original untrimmed bytes `[7, 7, 7]`.  (By contrast
an unpack failure does make `trimrecord()` return -1 and the record is
skipped, third conjunct.) -/
theorem C7_repack_failure_emits_original :
    writeRecordStep (fun _ => some ⟨1, 0, 10, 10⟩) (fun _ => none) c7Rec [7, 7, 7] =
      some [7, 7, 7] ∧
    (trimrecordF (fun _ => some ⟨1, 0, 10, 10⟩) (fun _ => none) c7Rec [7, 7, 7]).1 = 0 ∧
    writeRecordStep (fun _ => none) (fun _ => none) c7Rec [7, 7, 7] = none := by
  decide

/-- C8: the claim states that the renamed `.orig` inputs are unlinked
iff replace-input and no-backups are both set, and that no input file
is ever deleted when replace-input is off.  The source's condition is
`nobackups && ! ofp` instead: with replace-input off, no-backups on and
no single output file, the original input `data.mseed` itself is
unlinked (first conjunct); with replace-input and no-backups both on
but a single output file in use, the `.orig` backup is not unlinked
(second conjunct).  The third conjunct shows the one configuration in
which the claimed behaviour does occur. -/
theorem C8_unlink_divergence :
    unlinkTargets false true false ["data.mseed"] = ["data.mseed"] ∧
    unlinkTargets true true true ["data.mseed"] = [] ∧
    unlinkTargets true true false ["data.mseed"] = ["data.mseed.orig"] := by
  decide

/-- C2 (amended): for an ordered pair of distinct overlapping traces
with the same channel key and tolerable rates, when the qualities are
equal (or the priority variable enters the comparison at 0 with
`bestquality` off) and the bounding intervals have identical length,
the priority value becomes 1, so the SECOND trace of the pair is
chosen as the higher-priority trace and the first trace's records are
the ones trimmed: ties break toward the later trace in group order. -/
theorem C2_tie_breaks_to_second_trace (mst imst : MSTrace)
    (hq : qcompare mst.dataquality imst.dataquality = 0)
    (hlen : mst.endtime - mst.starttime = imst.endtime - imst.starttime) :
    pairDecision true 0 mst imst = 1 ∧
    pairDecision false 0 mst imst = 1 ∧
    pairLPHP true 0 mst imst = (mst, imst) ∧
    ∀ (pd : Char) (ttol : ℚ), pairConsidered mst imst →
      pruneTwo true pd ttol mst imst = ((trimtracesF pd ttol mst imst).1, imst) := by
  have hd : pairDecision true 0 mst imst = 1 := by
    simp [pairDecision, hq, hlen]
  have hd2 : pairDecision false 0 mst imst = 1 := by
    simp [pairDecision, hlen]
  refine ⟨hd, hd2, ?_, ?_⟩
  · simp [pairLPHP, hd]
  · intro pd ttol hcons
    simp [pruneTwo, hcons, hd]

/-- Witness for C2: the equal-quality, identical-bounds pair `A0, B0`
satisfies the hypotheses and the first trace is assigned the
lower-priority role. -/
theorem C2_tie_breaks_to_second_trace_witness :
    pairDecision true 0 A0 B0 = 1 ∧ pairLPHP true 0 A0 B0 = (A0, B0) :=
  ⟨(C2_tie_breaks_to_second_trace A0 B0 (by decide) (by decide)).1,
   (C2_tie_breaks_to_second_trace A0 B0 (by decide) (by decide)).2.2.1⟩

/-- C2 counterexample: the claim states that for an ordered pair with
equal qualities and identical bounding intervals the FIRST trace is
chosen as higher priority and the second trace's records are trimmed.
For the considered pair `A0, B0` (same key, tolerable rates,
overlapping, equal quality, identical bounds, distinct provenance) the
code chooses `B0` as higher priority: the `trimtraces` call receives
`A0` as the lower-priority trace, `A0`'s record is marked dropped and
`B0` is returned untouched. -/
theorem C2_counterexample :
    pairConsidered A0 B0 ∧
    qcompare A0.dataquality B0.dataquality = 0 ∧
    A0.endtime - A0.starttime = B0.endtime - B0.starttime ∧
    A0 ≠ B0 ∧
    pairLPHP true 0 A0 B0 = (A0, B0) ∧
    (pruneTwo true 'r' (-1) A0 B0).1.recs.map Record.reclen = [0] ∧
    (pruneTwo true 'r' (-1) A0 B0).2 = B0 := by
  have hrate : isratetolerable A0.samprate B0.samprate = true := isratetolerable_one
  have hcons : pairConsidered A0 B0 := ⟨rfl, hrate, by decide, by decide⟩
  have hd : pairDecision true 0 A0 B0 = 1 := by decide
  have hp2 : pruneTwo true 'r' (-1) A0 B0 = ((trimtracesF 'r' (-1) A0 B0).1, B0) := by
    simp [pruneTwo, hcons, hd]
  have hδ : hpdeltaOf B0.samprate = 1000000 := hpdeltaOf_one
  have htt : (trimtracesF 'r' (-1) A0 B0).1.recs.map Record.reclen = [0] := by
    simp only [trimtracesF]
    rw [hδ, hptimetolOf_default]
    decide
  refine ⟨hcons, by decide, by decide, by decide, ?_, ?_, ?_⟩
  · simp [pairLPHP, hd]
  · rw [hp2]
    exact htt
  · rw [hp2]

/-- Marking a record does not change its effective window. -/
lemma effStart_mark (r : Record) : effStart { r with reclen := 0 } = effStart r := rfl

/-- Marking a record does not change its effective window. -/
lemma effEnd_mark (r : Record) : effEnd { r with reclen := 0 } = effEnd r := rfl

/-- In record-level mode (`prunedata = 'r'`) one inner step of the
lower-priority walk either marks a contained record (and bumps the
removed counter) or leaves the state alone. -/
lemma lpStep_r_eq (hps hpe δ : Int) (seg : Int × Int) (r : Record) (rm tr : Nat) :
    lpStep 'r' hps hpe δ (r, rm, tr) seg =
      if segContains seg r then ({ r with reclen := 0 }, rm + 1, tr) else (r, rm, tr) := by
  have hrs : ('r' : Char) ≠ 's' := by decide
  by_cases hc : seg.1 ≤ effStart r ∧ effEnd r ≤ seg.2
  · simp [lpStep, segContains, hc, hrs]
  · simp [lpStep, segContains, hc, hrs]

/-- A record once marked stays marked through the rest of the
record-level walk. -/
lemma foldl_lpStep_r_marked (hps hpe δ : Int) (segs : List (Int × Int))
    (r : Record) (rm tr : Nat) :
    (segs.foldl (lpStep 'r' hps hpe δ) ({ r with reclen := 0 }, rm, tr)).1 =
      { r with reclen := 0 } := by
  induction segs generalizing rm tr with
  | nil => rfl
  | cons s ss ih =>
    rw [List.foldl_cons, lpStep_r_eq]
    by_cases hc : segContains s { r with reclen := 0 }
    · rw [if_pos hc]
      exact ih (rm + 1) tr
    · rw [if_neg hc]
      exact ih rm tr

/-- Characterization of the record-level walk of one LP record: the
record comes out marked exactly when some HP coverage segment contains
its effective window, and is otherwise returned unchanged. -/
lemma foldl_lpStep_r (hps hpe δ : Int) (segs : List (Int × Int))
    (r : Record) (rm tr : Nat) :
    (segs.foldl (lpStep 'r' hps hpe δ) (r, rm, tr)).1 =
      if ∃ s ∈ segs, segContains s r then { r with reclen := 0 } else r := by
  induction segs generalizing rm tr with
  | nil => simp
  | cons s ss ih =>
    rw [List.foldl_cons, lpStep_r_eq]
    by_cases hc : segContains s r
    · rw [if_pos hc, foldl_lpStep_r_marked,
        if_pos ⟨s, List.mem_cons_self s ss, hc⟩]
    · rw [if_neg hc, ih rm tr]
      have hiff : (∃ x ∈ s :: ss, segContains x r) ↔ (∃ x ∈ ss, segContains x r) := by
        simp only [List.mem_cons]
        constructor
        · rintro ⟨x, hx | hx, hcx⟩
          · exact absurd (hx ▸ hcx) hc
          · exact ⟨x, hx, hcx⟩
        · rintro ⟨x, hx, hcx⟩
          exact ⟨x, Or.inr hx, hcx⟩
      rw [if_congr hiff rfl rfl]

/-- C3 (amended): a lower-priority record whose effective window is
contained in an HP coverage segment is marked dropped at that step
(`reclen = 0`) with the owning file's removed counter incremented; and
after the record-level walk of `trimtraces()` no surviving LP record
has its effective window contained in any SINGLE coverage segment of
the higher-priority trace (containment in the union of abutting
segments does not imply removal). -/
theorem C3_containment_pruning (pd : Char) (hps hpe δ : Int) (seg : Int × Int)
    (r : Record) (rm tr : Nat) (lptrace hptrace : MSTrace) (ttol : ℚ)
    (hc : segContains seg r) :
    ((lpStep pd hps hpe δ (r, rm, tr) seg).1.reclen = 0 ∧
     (lpStep pd hps hpe δ (r, rm, tr) seg).2.1 = rm + 1) ∧
    ((trimtracesF 'r' ttol lptrace hptrace).1.recs =
       lptrace.recs.map (fun r0 =>
         (pruneRec 'r' hptrace.starttime hptrace.endtime (hpdeltaOf hptrace.samprate)
           (buildSegments (hpdeltaOf hptrace.samprate)
             (hptimetolOf ttol (hpdeltaOf hptrace.samprate)) hptrace.recs) r0).1)) ∧
    (∀ r0 ∈ lptrace.recs,
       (pruneRec 'r' hptrace.starttime hptrace.endtime (hpdeltaOf hptrace.samprate)
          (buildSegments (hpdeltaOf hptrace.samprate)
            (hptimetolOf ttol (hpdeltaOf hptrace.samprate)) hptrace.recs) r0).1.reclen ≠ 0 →
       ∀ s ∈ buildSegments (hpdeltaOf hptrace.samprate)
            (hptimetolOf ttol (hpdeltaOf hptrace.samprate)) hptrace.recs,
         ¬ segContains s r0) := by
  obtain ⟨h1, h2⟩ := hc
  refine ⟨?_, ?_, ?_⟩
  · simp [lpStep, h1, h2]
  · simp [trimtracesF, List.map_map]
  · intro r0 hmem hsurv s hs hcont
    rw [pruneRec, foldl_lpStep_r, if_pos ⟨s, hs, hcont⟩] at hsurv
    simp at hsurv

/-- Witness for C3: a record contained in the segment `(0, 10000000)`
is marked with the removed counter bumped, and the `lpT`/`hpT` instance
realizes the trace-level conclusions. -/
theorem C3_containment_pruning_witness :
    (lpStep 'r' 0 20000000 1000000
        (⟨0, 0, 512, 2000000, 8000000, 'D', 0, 0⟩, 0, 0) (0, 10000000)).1.reclen = 0 ∧
    (lpStep 'r' 0 20000000 1000000
        (⟨0, 0, 512, 2000000, 8000000, 'D', 0, 0⟩, 0, 0) (0, 10000000)).2.1 = 0 + 1 :=
  (C3_containment_pruning 'r' 0 20000000 1000000 (0, 10000000)
    ⟨0, 0, 512, 2000000, 8000000, 'D', 0, 0⟩ 0 0 lpT hpT (-1) (by decide)).1

/-- C3 counterexample: the claim's consequence fails on the union
coverage.  For the 1 Hz HP trace `hpT` the segment builder produces
two abutting segments `(0, 10000000)` and `(10000001, 20000000)` whose
union covers every tick of `[0, 20000000]`.  The LP record
`[5000000, 15000000]` of `lpT` survives record-level pruning with its
length intact even though its whole `[start, end]` window lies in the
union coverage of the HP trace. -/
theorem C3_counterexample :
    (trimtracesF 'r' (-1) lpT hpT).1.recs.map Record.reclen = [512] ∧
    lpT.recs.map (fun r => (r.starttime, r.endtime)) = [(5000000, 15000000)] ∧
    buildSegments (hpdeltaOf hpT.samprate) (hptimetolOf (-1) (hpdeltaOf hpT.samprate))
        hpT.recs = [(0, 10000000), (10000001, 20000000)] ∧
    coveredRange (buildSegments (hpdeltaOf hpT.samprate)
        (hptimetolOf (-1) (hpdeltaOf hpT.samprate)) hpT.recs) 5000000 15000000 := by
  have hδ : hpdeltaOf hpT.samprate = 1000000 := hpdeltaOf_one
  have hsegs : buildSegments (hpdeltaOf hpT.samprate)
      (hptimetolOf (-1) (hpdeltaOf hpT.samprate)) hpT.recs =
      [(0, 10000000), (10000001, 20000000)] := by
    rw [hδ, hptimetolOf_default]
    decide
  refine ⟨?_, by decide, hsegs, ?_⟩
  · simp only [trimtracesF]
    rw [hδ, hptimetolOf_default]
    decide
  · rw [hsegs]
    intro t ht1 ht2
    by_cases h : t ≤ 10000000
    · exact ⟨(0, 10000000), by simp, by omega, h⟩
    · exact ⟨(10000001, 20000000), by simp, by omega, by omega⟩

/-- The sample-level step on a record not contained in the current
segment, in closed form: the marking branch does not fire, the trim
assignments depend only on the HP trace's aggregate bounds, and the
trimmed counter is bumped once per firing assignment. -/
lemma lpStep_s_eq (hps hpe δ : Int) (sg : Int × Int) (r : Record) (rm tr : Nat)
    (hsg : ¬ segContains sg r) (hlen : r.reclen ≠ 0) :
    lpStep 's' hps hpe δ (r, rm, tr) sg =
      ((if effStart r ≤ hpe ∧ effEnd r ≥ hpe then
          { (if effStart r ≤ hps ∧ effEnd r ≥ hps then
               { r with newend := hps - δ } else r) with newstart := hpe + δ }
        else (if effStart r ≤ hps ∧ effEnd r ≥ hps then
               { r with newend := hps - δ } else r)),
       rm,
       tr + (if effStart r ≤ hps ∧ effEnd r ≥ hps then 1 else 0)
          + (if effStart r ≤ hpe ∧ effEnd r ≥ hpe then 1 else 0)) := by
  unfold segContains at hsg
  by_cases hc1 : effStart r ≤ hps ∧ effEnd r ≥ hps <;>
    by_cases hc2 : effStart r ≤ hpe ∧ effEnd r ≥ hpe <;>
      simp [lpStep, hsg, hlen, hc1, hc2]

/-- C4: in sample-level mode, a not-yet-dropped LP record not contained
in the current HP coverage segment gets `newend = HP.start − hpdelta`
when its effective window crosses the HP trace's aggregate start time
and `newstart = HP.end + hpdelta` when it crosses the aggregate end
time, the owning file's trimmed counter being incremented for each
firing assignment; and the step's whole outcome is independent of
which (non-containing) segment triggered it — the trim anchors are the
HP trace's aggregate bounds, never per-segment bounds. -/
theorem C4_sample_trim_anchoring (hps hpe δ : Int) (seg seg2 : Int × Int)
    (r : Record) (rm tr : Nat)
    (hnc : ¬ segContains seg r) (hlen : r.reclen ≠ 0) :
    ((effStart r ≤ hps ∧ effEnd r ≥ hps) →
       (lpStep 's' hps hpe δ (r, rm, tr) seg).1.newend = hps - δ) ∧
    ((effStart r ≤ hpe ∧ effEnd r ≥ hpe) →
       (lpStep 's' hps hpe δ (r, rm, tr) seg).1.newstart = hpe + δ) ∧
    ((lpStep 's' hps hpe δ (r, rm, tr) seg).2.2 =
       tr + (if effStart r ≤ hps ∧ effEnd r ≥ hps then 1 else 0)
          + (if effStart r ≤ hpe ∧ effEnd r ≥ hpe then 1 else 0)) ∧
    (¬ segContains seg2 r →
       lpStep 's' hps hpe δ (r, rm, tr) seg = lpStep 's' hps hpe δ (r, rm, tr) seg2) := by
  refine ⟨?_, ?_, ?_, ?_⟩
  · intro hcs
    rw [lpStep_s_eq hps hpe δ seg r rm tr hnc hlen]
    by_cases hc2 : effStart r ≤ hpe ∧ effEnd r ≥ hpe <;> simp [hcs, hc2]
  · intro hce
    rw [lpStep_s_eq hps hpe δ seg r rm tr hnc hlen]
    simp [hce]
  · rw [lpStep_s_eq hps hpe δ seg r rm tr hnc hlen]
  · intro hnc2
    rw [lpStep_s_eq hps hpe δ seg r rm tr hnc hlen,
        lpStep_s_eq hps hpe δ seg2 r rm tr hnc2 hlen]

/-- Witness for C4: the record `c4Rec = [5000000, 15000000]` crosses an
HP aggregate start of 8000000 (period 1000000) and is trimmed to
`newend = 7000000` with one counter bump, identically for two different
non-containing segments. -/
theorem C4_sample_trim_anchoring_witness :
    (lpStep 's' 8000000 18000000 1000000 (c4Rec, 0, 0) (16000000, 18000000)).1.newend =
      8000000 - 1000000 ∧
    (lpStep 's' 8000000 18000000 1000000 (c4Rec, 0, 0) (16000000, 18000000)).2.2 =
      0 + (if effStart c4Rec ≤ 8000000 ∧ effEnd c4Rec ≥ 8000000 then 1 else 0)
        + (if effStart c4Rec ≤ 18000000 ∧ effEnd c4Rec ≥ 18000000 then 1 else 0) ∧
    lpStep 's' 8000000 18000000 1000000 (c4Rec, 0, 0) (16000000, 18000000) =
      lpStep 's' 8000000 18000000 1000000 (c4Rec, 0, 0) (0, 1000000) := by
  have h := C4_sample_trim_anchoring 8000000 18000000 1000000
    (16000000, 18000000) (0, 1000000) c4Rec 0 0 (by decide) (by decide)
  exact ⟨h.1 (by decide), h.2.2.1, h.2.2.2 (by decide)⟩

/-- C10: the tick value 0 doubles as the unset sentinel for the trim
adjustments.  A live record with `newstart = newend = 0` is emitted
with its original bytes (no trim), and its effective window in the
pruner and splitter is its original `[start, end]`.  Moreover, when a
sample-level trim assigns `newend = HP.start − hpdelta` with
`HP.start = hpdelta`, the resulting record again has `newend = 0`: it
is the very same state as an unadjusted record, so it too is emitted
unchanged and its effective end reverts to the original end time. -/
theorem C10_zero_sentinel (r : Record) (buf : List Int)
    (unpack : List Int → Option CodecMsr) (pack : CodecMsr → Option (List Int))
    (hlen : r.reclen ≠ 0) (hs : r.newstart = 0) (he : r.newend = 0) :
    writeRecordStep unpack pack r buf = some buf ∧
    effStart r = r.starttime ∧
    effEnd r = r.endtime ∧
    (∀ (hps hpe δ : Int) (rm tr : Nat) (seg : Int × Int),
       ¬ segContains seg r → hps = δ →
       (effStart r ≤ hps ∧ effEnd r ≥ hps) →
       ¬ (effStart r ≤ hpe ∧ effEnd r ≥ hpe) →
       ((lpStep 's' hps hpe δ (r, rm, tr) seg).1 = r ∧
        writeRecordStep unpack pack (lpStep 's' hps hpe δ (r, rm, tr) seg).1 buf = some buf ∧
        effEnd (lpStep 's' hps hpe δ (r, rm, tr) seg).1 = r.endtime)) := by
  have hw : writeRecordStep unpack pack r buf = some buf := by
    simp [writeRecordStep, hlen, hs, he]
  have hes : effStart r = r.starttime := by simp [effStart, hs]
  have hee : effEnd r = r.endtime := by simp [effEnd, he]
  refine ⟨hw, hes, hee, ?_⟩
  intro hps hpe δ rm tr seg hnc hδ hcs hce
  have hstep : (lpStep 's' hps hpe δ (r, rm, tr) seg).1 = r := by
    rw [lpStep_s_eq hps hpe δ seg r rm tr hnc hlen]
    simp only [if_pos hcs, if_neg hce]
    have : ({ r with newend := hps - δ } : Record) = r := by
      rw [hδ]
      have hz : δ - δ = (0 : Int) := by omega
      rw [hz, ← he]
    exact this
  refine ⟨hstep, ?_, ?_⟩
  · rw [hstep]
    exact hw
  · rw [hstep]
    exact hee

/-- Witness for C10: the record `c10Rec` (window `[-5000000, 5000000]`,
no adjustments) is emitted as is, and a sample trim against an HP trace
starting exactly one period after the epoch (`HP.start = hpdelta =
1000000`) leaves it bit-for-bit identical and still emitted as is. -/
theorem C10_zero_sentinel_witness :
    writeRecordStep (fun _ => some ⟨1, 0, 10, 10⟩) (fun m => some [m.starttime])
      c10Rec [3, 4] = some [3, 4] ∧
    (lpStep 's' 1000000 90000000 1000000 (c10Rec, 0, 0) (2000000, 3000000)).1 = c10Rec := by
  have h := C10_zero_sentinel c10Rec [3, 4]
    (fun _ => some ⟨1, 0, 10, 10⟩) (fun m => some [m.starttime])
    (by decide) (by decide) (by decide)
  exact ⟨h.1,
    (h.2.2.2 1000000 90000000 1000000 0 0 (2000000, 3000000)
      (by decide) rfl (by decide) (by decide)).1⟩

/-- The computed split boundary lies strictly above the effective
start time. -/
lemma nextBoundary_gt (u t : Int) (hu : 0 < u) : t < nextBoundary u t := by
  unfold nextBoundary
  rw [Int.fdiv_eq_ediv t (le_of_lt hu)]
  exact Int.lt_ediv_add_one_mul_self t hu

/-- The computed split boundary is aligned to the unit. -/
lemma nextBoundary_mod (u t : Int) : nextBoundary u t % u = 0 := by
  unfold nextBoundary
  exact Int.mul_emod_left _ _

/-- The computed split boundary is the least aligned time strictly
above the effective start time. -/
lemma nextBoundary_least (u t m : Int) (hu : 0 < u) (h1 : t < m) (h2 : m % u = 0) :
    nextBoundary u t ≤ m := by
  obtain ⟨k, hk⟩ := Int.dvd_of_emod_eq_zero h2
  unfold nextBoundary
  rw [Int.fdiv_eq_ediv t (le_of_lt hu)]
  have hlt : t / u < k := by
    rw [Int.ediv_lt_iff_lt_mul hu]
    rw [hk, mul_comm] at h1
    exact h1
  have hle : t / u + 1 ≤ k := hlt
  calc (t / u + 1) * u ≤ k * u := mul_le_mul_of_nonneg_right hle (le_of_lt hu)
  _ = m := by rw [hk]; ring

/-- Every record produced by the split loop keeps the original
descriptor's fields other than the trim adjustments, and the chain
holds exactly one more record than the number of splits counted. -/
lemma splitLoop_fields (u δ : Int) (fuel : Nat) (r : Record) (l : List Record) (c : Nat)
    (h : splitLoop u δ fuel r = some (l, c)) :
    (∀ x ∈ l, x.starttime = r.starttime ∧ x.endtime = r.endtime ∧ x.flp = r.flp ∧
       x.offset = r.offset ∧ x.reclen = r.reclen ∧ x.quality = r.quality) ∧
    l.length = c + 1 := by
  induction fuel generalizing r l c with
  | zero => simp [splitLoop] at h
  | succ n ih =>
    simp only [splitLoop] at h
    by_cases hgt : r.endtime > nextBoundary u (effStart r)
    · rw [if_pos hgt] at h
      cases hm : splitLoop u δ n { r with newstart := nextBoundary u (effStart r) } with
      | none => rw [hm] at h; simp at h
      | some p =>
        obtain ⟨l2, c2⟩ := p
        rw [hm] at h
        simp only [Option.some.injEq, Prod.mk.injEq] at h
        obtain ⟨hl, hc⟩ := h
        obtain ⟨hfields, hlength⟩ := ih { r with newstart := nextBoundary u (effStart r) } l2 c2 hm
        subst hl
        constructor
        · intro x hx
          rcases List.mem_cons.mp hx with hx | hx
          · subst hx
            exact ⟨rfl, rfl, rfl, rfl, rfl, rfl⟩
          · exact hfields x hx
        · simp only [List.length_cons, hlength]
          omega
    · rw [if_neg hgt] at h
      simp only [Option.some.injEq, Prod.mk.injEq] at h
      obtain ⟨hl, hc⟩ := h
      subst hl
      exact ⟨by rintro x hx; simp at hx; subst hx; exact ⟨rfl, rfl, rfl, rfl, rfl, rfl⟩,
             by simp [← hc]⟩

/-- C6: behaviour of the boundary-splitting loop of `readfiles()`.
The computed boundary is the least unit-aligned time strictly greater
than the record's effective start; when the record ends at or before
the boundary the record is left unchanged and no split is counted;
when it ends beyond the boundary the chain starts with the current
record carrying `newend = boundary − hpdelta`, the split counter is at
least one, and the rest of the chain is exactly the loop's output for
the clone carrying `newstart = boundary` (its end time untouched);
every record of the chain keeps the original start/end/provenance
fields, and the chain length is the split count plus one. -/
theorem C6_split_loop (u δ : Int) (fuel : Nat) (r : Record) (l : List Record) (c : Nat)
    (hu : 0 < u) (h : splitLoop u δ fuel r = some (l, c)) :
    (effStart r < nextBoundary u (effStart r) ∧
     nextBoundary u (effStart r) % u = 0 ∧
     ∀ m : Int, effStart r < m → m % u = 0 → nextBoundary u (effStart r) ≤ m) ∧
    (r.endtime ≤ nextBoundary u (effStart r) → l = [r] ∧ c = 0) ∧
    (r.endtime > nextBoundary u (effStart r) →
       1 ≤ c ∧
       l.head? = some { r with newend := nextBoundary u (effStart r) - δ } ∧
       splitLoop u δ (fuel - 1) { r with newstart := nextBoundary u (effStart r) } =
         some (l.tail, c - 1)) ∧
    (∀ x ∈ l, x.starttime = r.starttime ∧ x.endtime = r.endtime ∧ x.flp = r.flp ∧
       x.offset = r.offset ∧ x.reclen = r.reclen ∧ x.quality = r.quality) ∧
    l.length = c + 1 := by
  obtain ⟨hfields, hlength⟩ := splitLoop_fields u δ fuel r l c h
  refine ⟨⟨nextBoundary_gt u (effStart r) hu, nextBoundary_mod u (effStart r),
           fun m => nextBoundary_least u (effStart r) m hu⟩, ?_, ?_, hfields, hlength⟩
  · intro hle
    cases fuel with
    | zero => simp [splitLoop] at h
    | succ n =>
      simp only [splitLoop] at h
      rw [if_neg (not_lt.mpr hle)] at h
      simp only [Option.some.injEq, Prod.mk.injEq] at h
      exact ⟨h.1.symm, h.2.symm⟩
  · intro hgt
    cases fuel with
    | zero => simp [splitLoop] at h
    | succ n =>
      simp only [splitLoop] at h
      rw [if_pos hgt] at h
      cases hm : splitLoop u δ n { r with newstart := nextBoundary u (effStart r) } with
      | none => rw [hm] at h; simp at h
      | some p =>
        obtain ⟨l2, c2⟩ := p
        rw [hm] at h
        simp only [Option.some.injEq, Prod.mk.injEq] at h
        obtain ⟨hl, hc⟩ := h
        subst hl
        refine ⟨by omega, rfl, ?_⟩
        simp only [Nat.add_sub_cancel, List.tail_cons]
        have hc2 : c - 1 = c2 := by omega
        rw [hc2]
        exact hm

/-- Witness for C6: the record `sr = [30000000, 90000000]` crossing one
minute boundary at 60000000 (period 1000000) splits into exactly the
two-record chain `srList` with one split counted. -/
theorem C6_split_loop_witness :
    splitLoop 60000000 1000000 3 sr = some (srList, 1) ∧
    srList.length = 1 + 1 ∧
    sr.endtime > nextBoundary 60000000 (effStart sr) ∧
    srList.head? = some { sr with newend := nextBoundary 60000000 (effStart sr) - 1000000 } := by
  have hsplit : splitLoop 60000000 1000000 3 sr = some (srList, 1) := by decide
  have h := C6_split_loop 60000000 1000000 3 sr srList 1 (by decide) hsplit
  have hgt : sr.endtime > nextBoundary 60000000 (effStart sr) := by decide
  exact ⟨hsplit, h.2.2.2.2, hgt, (h.2.2.1 hgt).2.1⟩

/-- C9 counterexample: the claim states that when raising the open-file
limit fails, emission nevertheless proceeds for those files.  With a
current soft limit of 4, a needed limit of 220 (100 files) and a
failing `setrlimit`, `setofilelimit()` returns -1 and `processpod()`
skips the whole channel group instead of proceeding. -/
theorem C9_counterexample :
    setofilelimitF true 4 220 false = -1 ∧
    podGroupProceeds true 4 100 false = false := by
  decide

/-- C9 (amended): the soft open-file limit is raised to
`2 * filecount + 20` exactly when the current limit is below that
value; when `setofilelimit()` fails, the channel group is skipped
(its files are neither read nor emitted) and processing continues with
the next group. -/
theorem C9_limit_raise_and_group_skip (getOk setOk : Bool) (cur : Int) (filecount : Nat) :
    (getOk = true → setOk = true → cur < 2 * (filecount : Int) + 20 →
       setofilelimitF getOk cur (2 * (filecount : Int) + 20) setOk =
         2 * (filecount : Int) + 20) ∧
    (getOk = true → 2 * (filecount : Int) + 20 ≤ cur →
       setofilelimitF getOk cur (2 * (filecount : Int) + 20) setOk = cur) ∧
    (setofilelimitF getOk cur (2 * (filecount : Int) + 20) setOk = -1 →
       podGroupProceeds getOk cur filecount setOk = false) := by
  refine ⟨?_, ?_, ?_⟩
  · intro hg hs hlt
    simp [setofilelimitF, hg, hs, hlt]
  · intro hg hge
    simp [setofilelimitF, hg, not_lt.mpr hge]
  · intro hfail
    simp [podGroupProceeds, hfail]

/-- Witness for C9: concrete applications with every hypothesis
discharged — a raise from 4 to 220 succeeds, a current limit of 300 is
left alone, and a failed raise skips the group. -/
theorem C9_limit_raise_and_group_skip_witness :
    setofilelimitF true 4 (2 * (100 : Int) + 20) true = 2 * (100 : Int) + 20 ∧
    setofilelimitF true 300 (2 * (100 : Int) + 20) false = 300 ∧
    podGroupProceeds true 4 100 false = false :=
  ⟨(C9_limit_raise_and_group_skip true true 4 100).1 rfl rfl (by decide),
   (C9_limit_raise_and_group_skip true false 300 100).2.1 rfl (by decide),
   (C9_limit_raise_and_group_skip true false 4 100).2.2 (by decide)⟩

end Dataselect
